import Mathlib

/-!
Verification development for the yenu recipe manager (Python).

Shallow embedding conventions:
* Python strings are modelled as lists of Unicode code points (`List Nat`).
* Python `str.lower` / `str.isalnum` are modelled on the ASCII and Latin-1
  ranges plus the CJK ideograph block; outside those ranges the model maps a
  code point to itself / to `false`.  All concrete inputs used below stay in
  the modelled ranges, where the model agrees with Python exactly.
* `pypinyin.lazy_pinyin` is modelled by a finite table for the concrete CJK
  characters used in examples; for any other character it returns the
  character itself, mirroring the library's default error handling
  (unconvertible input is passed through unchanged).
* Python floats are modelled by `Rat`; the only float operation the code
  performs on them is the `is_integer` test in serialization, which is exact.
* The filesystem store of recipe files is an association list from slug to
  parsed YAML document; `yaml.safe_dump`/`yaml.safe_load` and the JSON text
  layer are taken as faithful inverse pairs, so file contents are modelled by
  the dumped dictionary structure itself.
-/

namespace Yenu

/-- Code points of a string literal, the encoding used for Python strings. -/
def sc (s : String) : List Nat := s.data.map Char.toNat

/-- Model of the regex `[一-鿿]` used by `_is_cjk` in utils.py. -/
def isCJK (c : Nat) : Bool := decide (0x4e00 ≤ c ∧ c ≤ 0x9fff)

/-- Model of Python `str.isalnum` on one code point, restricted to the ASCII
alphanumerics, the Latin-1 letters and the CJK ideograph block (all of which
Python classifies as alphanumeric); other code points are mapped to `false`. -/
def py_isalnum (c : Nat) : Bool :=
  decide ((48 ≤ c ∧ c ≤ 57) ∨ (65 ≤ c ∧ c ≤ 90) ∨ (97 ≤ c ∧ c ≤ 122) ∨
    (0xc0 ≤ c ∧ c ≤ 0xd6) ∨ (0xd8 ≤ c ∧ c ≤ 0xf6) ∨ (0xf8 ≤ c ∧ c ≤ 0xff) ∨
    (0x4e00 ≤ c ∧ c ≤ 0x9fff))

/-- Model of Python `str.lower` on one code point, restricted to the ASCII and
Latin-1 uppercase ranges; other code points are fixed. -/
def py_lower (c : Nat) : Nat :=
  if 65 ≤ c ∧ c ≤ 90 then c + 32
  else if 0xc0 ≤ c ∧ c ≤ 0xde ∧ c ≠ 0xd7 then c + 32
  else c

/-- Lowercasing a whole string, `s.lower()`. -/
def lowerStr (s : List Nat) : List Nat := s.map py_lower

/-- Finite table of pinyin readings for the CJK characters appearing in the
concrete examples of this development (中 and 饭). -/
def pinyinTable (c : Nat) : Option (List Nat) :=
  if c = 0x4e2d then some (sc ("zhong"))
  else if c = 0x996d then some (sc ("fan"))
  else none

/-- Model of `lazy_pinyin(ch)[0]` for a single character: table lookup, and the
character itself when the library has no reading (pypinyin's default error
behaviour passes unconvertible input through unchanged). -/
def lazy_pinyin1 (c : Nat) : List Nat := (pinyinTable c).getD [c]

/-- The fragment `slugify_title` emits for one character of the title. -/
def charFrag (c : Nat) : List Nat :=
  if isCJK c then (lazy_pinyin1 c).map py_lower
  else if py_isalnum c then [py_lower c]
  else [45]

/-- Model of `re.sub(r"-+", "-", s)`: collapse each run of hyphens to one. -/
def collapseHy : List Nat → List Nat
  | [] => []
  | [a] => [a]
  | a :: b :: l =>
    if a = 45 ∧ b = 45 then collapseHy (b :: l) else a :: collapseHy (b :: l)

/-- Remove the trailing run of characters satisfying p (right half of
Python `str.strip`). -/
def trimRight (p : Nat → Bool) : List Nat → List Nat
  | [] => []
  | a :: l =>
    match trimRight p l with
    | [] => if p a then [] else [a]
    | l' => a :: l'

/-- Model of Python `s.strip(chars)` for a character predicate. -/
def pyStripBy (p : Nat → Bool) (s : List Nat) : List Nat :=
  trimRight p (s.dropWhile p)

/-- Python whitespace test for `str.strip()` (ASCII whitespace plus the
separator controls, NEL and NBSP; sufficient for the modelled range). -/
def pySpace (c : Nat) : Bool :=
  decide (c = 9 ∨ c = 10 ∨ c = 11 ∨ c = 12 ∨ c = 13 ∨ (28 ≤ c ∧ c ≤ 32) ∨
    c = 133 ∨ c = 160)

/-- Model of Python `s.strip()` (no argument: strip whitespace). -/
def pyStrip (s : List Nat) : List Nat := pyStripBy pySpace s

/-- utils.slugify_title: per-character fragments, joined, hyphen runs
collapsed, hyphens stripped from the ends, with fallback "recipe". -/
def slugify_title (t : List Nat) : List Nat :=
  let slug := pyStripBy (fun c => c == 45) (collapseHy (t.map charFrag).flatten)
  if slug.isEmpty then sc ("recipe") else slug

/-! ## Data model (models.py) -/

/-- models.Ingredient after pydantic validation: name, optional numeric
weight (Python float modelled by Rat), unit string. -/
structure Ingredient where
  name : List Nat
  weight : Option Rat
  unit : List Nat
  deriving DecidableEq, Repr

/-- models.Step after validation: non-empty text and optional image path. -/
structure Step where
  text : List Nat
  image_path : Option (List Nat)
  deriving DecidableEq, Repr

/-- models.Recipe after pydantic validation. -/
structure Recipe where
  title : List Nat
  tags : Option (List (List Nat))
  ingredients : List Ingredient
  steps : List Step
  dish_image_path : Option (List Nat)
  deriving DecidableEq, Repr

/-- A YAML scalar holding a Python number: int or float. -/
inductive YNum where
  | int (n : Int)
  | float (q : Rat)
  deriving DecidableEq, Repr

/-- Serialized (dumped) form of one ingredient: optional keys model key
presence in the YAML mapping. -/
structure IngredientY where
  name : List Nat
  weight : Option YNum
  unit : Option (List Nat)
  deriving DecidableEq, Repr

/-- Serialized form of one step. -/
structure StepY where
  text : List Nat
  image_path : Option (List Nat)
  deriving DecidableEq, Repr

/-- Serialized form of a whole recipe file, i.e. the dictionary produced by
Recipe.dict_for_yaml and written through yaml.safe_dump. -/
structure RecipeY where
  title : List Nat
  tags : Option (List (List Nat))
  ingredients : List IngredientY
  steps : List StepY
  dish_image_path : Option (List Nat)
  deriving DecidableEq, Repr

/-- Numeric value of a YAML scalar when read back into a Python float. -/
def numToRat : YNum → Rat
  | .int n => (n : Rat)
  | .float q => q

/-- Model of pathlib Path(p).as_posix() on POSIX: split on slashes, drop
empty and single-dot components, rejoin (keeping a leading slash). -/
def posixNorm (p : List Nat) : List Nat :=
  let comps := (p.splitOn 47).filter (fun c => !c.isEmpty && c ≠ [46])
  let body := (comps.map (fun c => c ++ [47])).flatten.dropLast
  if p.head? = some 47 then 47 :: body else body

/-! ## Serialization: Recipe.dict_for_yaml (models.py lines 73-105) -/

/-- The weight scalar written for a present weight: an integral float is
written as an int, mirroring the float(...).is_integer() conversion. -/
def ratToY (w : Rat) : YNum :=
  if w.den = 1 then .int w.num else .float w

/-- Ingredient part of dict_for_yaml: drop the weight key when None,
normalize integral weights to int, drop the unit key when falsy. -/
def serializeIngredient (i : Ingredient) : IngredientY :=
  { name := i.name
    weight := i.weight.map ratToY
    unit := if i.unit.isEmpty then none else some i.unit }

/-- Step part of dict_for_yaml: always write text, write image_path only
when truthy, as a normalized posix path. -/
def serializeStep (s : Step) : StepY :=
  { text := s.text
    image_path :=
      match s.image_path with
      | none => none
      | some p => if p.isEmpty then none else some (posixNorm p) }

/-- Recipe.dict_for_yaml: the dictionary persisted for a recipe. -/
def dict_for_yaml (r : Recipe) : RecipeY :=
  { title := r.title
    tags := r.tags
    ingredients := r.ingredients.map serializeIngredient
    steps := r.steps.map serializeStep
    dish_image_path :=
      match r.dish_image_path with
      | none => none
      | some p => if p.isEmpty then some p else some (posixNorm p) }

/-! ## Parsing: the pydantic constructors (Recipe(**data)) -/

/-- The unit validator of models.Ingredient: an absent or zero weight forces
the unit to the empty string, otherwise the supplied unit is stripped. -/
def unitValidator (w : Option Rat) (v : Option (List Nat)) : List Nat :=
  match w with
  | none => []
  | some wv => if wv = 0 then [] else pyStrip (v.getD [])

/-- Model of Ingredient(name=..., weight=..., unit=...): fails when the name
violates min_length=1, otherwise runs the unit validator. -/
def mkIngredient (name : List Nat) (w : Option Rat) (v : Option (List Nat)) :
    Option Ingredient :=
  if name.isEmpty then none else some ⟨name, w, unitValidator w v⟩

/-- Reading one serialized ingredient back through the Ingredient model;
the weight scalar is coerced to float. -/
def parseIngredient (iy : IngredientY) : Option Ingredient :=
  mkIngredient iy.name (iy.weight.map numToRat) iy.unit

/-- List-valued mapM over Option, used to model a pydantic list field whose
element validation can fail. -/
def mapOpt (f : α → Option β) : List α → Option (List β)
  | [] => some []
  | a :: l =>
    match f a, mapOpt f l with
    | some b, some l' => some (b :: l')
    | _, _ => none

/-- Strip each tag and drop the ones that strip to empty (the list
comprehension inside _normalize_tags). -/
def stripTags : List (List Nat) → List (List Nat)
  | [] => []
  | t :: l =>
    if (pyStrip t).isEmpty then stripTags l else pyStrip t :: stripTags l

/-- The _normalize_tags validator: strip each tag, drop the empty ones, and
turn an empty result into None. -/
def parseTags : Option (List (List Nat)) → Option (List (List Nat))
  | none => none
  | some l => if (stripTags l).isEmpty then none else some (stripTags l)

/-- The _normalize_steps validator on dict-shaped steps: strip the text,
drop steps whose stripped text is empty, keep image_path as supplied. -/
def parseSteps : List StepY → List Step
  | [] => []
  | sy :: l =>
    if (pyStrip sy.text).isEmpty then parseSteps l
    else ⟨pyStrip sy.text, sy.image_path⟩ :: parseSteps l

/-- Model of Recipe(**data) on a loaded recipe dictionary: runs the pre
validators, the per-field models and the min_length/min_items checks; any
pydantic ValidationError is None. -/
def parseRecipe (y : RecipeY) : Option Recipe :=
  if y.title.isEmpty then none
  else
    (mapOpt parseIngredient y.ingredients).bind (fun ings =>
      if ings.isEmpty then none
      else if (parseSteps y.steps).isEmpty then none
      else some ⟨y.title, parseTags y.tags, ings, parseSteps y.steps,
        y.dish_image_path⟩)

/-! ## The on-disk store (services/recipes_yaml.py)

The recipes directory is an association list from slug to the parsed YAML
document stored in the file `slug + ".yaml"`. -/

/-- A slug (file stem). -/
abbrev Slug := List Nat

/-- The recipes directory: filename stem paired with file content. -/
abbrev Store := List (Slug × RecipeY)

/-- Content of the file for a slug, when it exists. -/
def storeGet : Store → Slug → Option RecipeY
  | [], _ => none
  | (s, y) :: st, k => if s = k then some y else storeGet st k

/-- Atomic write of a file: replace the content when the file exists,
otherwise create it. -/
def storeSet : Store → Slug → RecipeY → Store
  | [], k, v => [(k, v)]
  | (s, y) :: st, k, v =>
    if s = k then (s, v) :: st else (s, y) :: storeSet st k v

/-- Lexicographic order on code-point strings. -/
def strLE : List Nat → List Nat → Bool
  | [], _ => true
  | _ :: _, [] => false
  | a :: x, b :: y => if a < b then true else if b < a then false else strLE x y

/-- Order two directory entries by file name, i.e. by slug ++ ".yaml" as
sorted(RECIPES_DIR.glob("*.yaml")) does. -/
def fileLE (a b : Slug × RecipeY) : Bool :=
  strLE (a.1 ++ sc (".yaml")) (b.1 ++ sc (".yaml"))

/-- Insertion into a list sorted by fileLE. -/
def insertByName (a : Slug × RecipeY) : Store → Store
  | [] => [a]
  | b :: l => if fileLE a b then a :: b :: l else b :: insertByName a l

/-- The directory listing in sorted filename order. -/
def sortStore : Store → Store
  | [] => []
  | a :: l => insertByName a (sortStore l)

/-- get_all_recipes: list files in sorted order, parse each, and silently
skip the files that fail to parse. -/
def get_all_recipes (st : Store) : List (Slug × Recipe) :=
  (sortStore st).filterMap (fun sy => (parseRecipe sy.2).map (fun r => (sy.1, r)))

/-- read_recipe: None when the file is absent; a parse failure propagates
as an exception (modelled by the error case). -/
def read_recipe (st : Store) (slug : Slug) : Except Unit (Option Recipe) :=
  match storeGet st slug with
  | none => .ok none
  | some y =>
    match parseRecipe y with
    | some r => .ok (some r)
    | none => .error ()

/-- write_recipe: re-derive the slug from the title, switch to it when it
differs, and atomically write the serialized recipe there.  The file at the
old slug is not touched.  Returns the final slug and the new store. -/
def write_recipe (slug : Slug) (r : Recipe) (st : Store) : Slug × Store :=
  let desired : Slug := slugify_title r.title
  let slug := if desired ≠ slug then desired else slug
  (slug, storeSet st slug (dict_for_yaml r))

/-- create_recipe: derive the slug and write, overwriting any existing file
at that slug. -/
def create_recipe (r : Recipe) (st : Store) : Slug × Store :=
  let slug : Slug := slugify_title r.title
  (slug, storeSet st slug (dict_for_yaml r))

/-- delete_recipe: remove the file when present, reporting whether it was. -/
def delete_recipe (st : Store) (slug : Slug) : Bool × Store :=
  match storeGet st slug with
  | none => (false, st)
  | some _ => (true, st.filter (fun sy => sy.1 ≠ slug))

/-! ## Search and pagination -/

/-- Truthiness of an Optional[str] argument: neither None nor empty. -/
def strTruthy : Option (List Nat) → Bool
  | none => false
  | some s => !s.isEmpty

/-- utils.paginate: clamp page to 1, replace an invalid page_size by 10,
then slice [(page-1)*page_size : page*page_size]. -/
def paginate (items : List α) (page page_size : Int) : List α :=
  let page := if page < 1 then 1 else page
  let page_size := if page_size < 1 then 10 else page_size
  let start := (page - 1) * page_size
  (items.drop start.toNat).take page_size.toNat

/-- Does p occur at the start of s (helper for the substring test). -/
def startsStr : List Nat → List Nat → Bool
  | [], _ => true
  | _ :: _, [] => false
  | a :: p, b :: s => a = b && startsStr p s

/-- Python substring containment, p in s. -/
def isSubStr (p : List Nat) : List Nat → Bool
  | [] => p.isEmpty
  | b :: s => startsStr p (b :: s) || isSubStr p s

/-- The matches closure of search_recipes: the early-return chain over the
three optional filters, each applied only when truthy. -/
def matchesRec (q tag ingredient : Option (List Nat)) (r : Recipe) : Bool :=
  (if strTruthy q then
    let ql := lowerStr (q.getD [])
    isSubStr ql (lowerStr r.title) ||
      (r.tags.getD []).any (fun t => isSubStr ql (lowerStr t))
  else true) &&
  (if strTruthy tag then
    let tl := lowerStr (tag.getD [])
    (r.tags.getD []).any (fun t => tl = lowerStr t)
  else true) &&
  (if strTruthy ingredient then
    let il := lowerStr (ingredient.getD [])
    r.ingredients.any (fun ing => isSubStr il (lowerStr ing.name))
  else true)

/-- One row of a search result. -/
structure SearchItem where
  slug : Slug
  title : List Nat
  tags : List (List Nat)
  dish_image_path : Option (List Nat)
  deriving DecidableEq, Repr

/-- The dictionary returned by search_recipes. -/
structure SearchResult where
  total : Nat
  items : List SearchItem
  deriving DecidableEq, Repr

/-- search_recipes: filter the full listing, count before pagination, then
return the requested page. -/
def search_recipes (st : Store) (q tag ingredient : Option (List Nat))
    (page page_size : Int) : SearchResult :=
  let items := get_all_recipes st
  let filtered := items.filter (fun sr => matchesRec q tag ingredient sr.2)
  { total := filtered.length
    items := (paginate filtered page page_size).map (fun sr =>
      ⟨sr.1, sr.2.title, sr.2.tags.getD [], sr.2.dish_image_path⟩) }

/-! ## Export / import -/

/-- export_all_json: every parseable record in listing order, tagged with
its slug, serialized through dict_for_yaml. -/
def export_all_json (st : Store) : List (Slug × RecipeY) :=
  (get_all_recipes st).map (fun sr => (sr.1, dict_for_yaml sr.2))

/-- import_from_json: rebuild each item through the Recipe model (ignoring
the stored slug), derive the slug from the title, and upsert through
write_recipe, counting created versus updated by prior file existence.  A
validation failure anywhere aborts the whole import. -/
def import_from_json (items : List (Slug × RecipeY)) (st : Store) :
    Option (Store × Nat × Nat) :=
  match items with
  | [] => some (st, 0, 0)
  | (_, y) :: rest =>
    match parseRecipe y with
    | none => none
    | some r =>
      let slug : Slug := slugify_title r.title
      let existed := (storeGet st slug).isSome
      let st' := (write_recipe slug r st).2
      match import_from_json rest st' with
      | none => none
      | some (stf, c, u) =>
        if existed then some (stf, c, u + 1) else some (stf, c + 1, u)

/-! ## Atomic writes (utils.atomic_write) as a crash-step machine

The protocol has five steps: (1) create the parent directories, (2) write
the payload to a fresh temporary file in the same directory, (3) flush it,
(4) fsync it, (5) os.replace the temporary file over the target.  A run that
crashes after k completed steps leaves the filesystem below. -/

/-- A flat filesystem: path to byte-string content. -/
abbrev FS := List (List Nat × List Nat)

/-- Content of a file, when it exists. -/
def fsGet : FS → List Nat → Option (List Nat)
  | [], _ => none
  | (p, d) :: fs, k => if p = k then some d else fsGet fs k

/-- Create or overwrite a file. -/
def fsSet : FS → List Nat → List Nat → FS
  | [], k, v => [(k, v)]
  | (p, d) :: fs, k, v =>
    if p = k then (p, v) :: fs else (p, d) :: fsSet fs k v

/-- Remove a file. -/
def fsDel (fs : FS) (k : List Nat) : FS := fs.filter (fun pd => pd.1 ≠ k)

/-- State of the filesystem after atomic_write(path, data) has completed k
steps and then stopped (crashed if k < 5).  tmp is the fresh name chosen by
NamedTemporaryFile; written is the part of the payload already on disk when
the crash interrupts the write step. -/
def atomic_write_run (fs : FS) (path tmp data written : List Nat) (k : Nat) : FS :=
  if k ≤ 1 then fs
  else if k = 2 then fsSet fs tmp written
  else if k ≤ 4 then fsSet fs tmp data
  else fsSet (fsDel fs tmp) path data

/-! ## safe_join (utils.py) -/

/-- Model of Path.resolve() on absolute component lists: ".." removes the
previous component (staying at the root) and "." disappears.  Symlinks are
not modelled: the embedding treats resolution as lexical. -/
def resolveComps (l : List (List Nat)) : List (List Nat) :=
  l.foldl (fun acc c =>
    if c = [46, 46] then acc.dropLast
    else if c = [46] then acc
    else acc ++ [c]) []

/-- str() of an absolute path given by its components. -/
def renderAbs (l : List (List Nat)) : List Nat :=
  (l.map (fun c => 47 :: c)).flatten

/-- Does the rendered string pre occur at the start of s (str.startswith)? -/
def strStarts (pre s : List Nat) : Bool := startsStr pre s

/-- utils.safe_join: resolve base / Path(*paths) and accept the candidate
iff its string starts with the string of the resolved base. -/
def safe_join (base parts : List (List Nat)) : Option (List (List Nat)) :=
  let candidate := resolveComps (base ++ parts)
  let base_resolved := resolveComps base
  if strStarts (renderAbs base_resolved) (renderAbs candidate) then some candidate
  else none

/-- The candidate actually lies inside the base directory: the resolved base
is a componentwise prefix of the candidate. -/
def underBase (base cand : List (List Nat)) : Bool :=
  (resolveComps base).isPrefixOf cand

/-! ## Concrete records used in examples -/

/-- A small well-formed recipe. -/
def exA : Recipe :=
  { title := sc ("Tomato Egg")
    tags := some [sc ("home")]
    ingredients := [{ name := sc ("Egg"), weight := some 2, unit := sc ("pc") }]
    steps := [{ text := sc ("Fry"), image_path := none }]
    dish_image_path := none }

/-- The same recipe under a different title. -/
def exB : Recipe := { exA with title := sc ("Banana Pancakes") }

/-! ## Map lemmas for the store and the filesystem -/

theorem storeGet_storeSet_self (st : Store) (k : Slug) (v : RecipeY) :
    storeGet (storeSet st k v) k = some v := by
  induction st with
  | nil => simp [storeSet, storeGet]
  | cons sy st ih =>
    by_cases h : sy.1 = k <;> simp [storeSet, storeGet, h, ih]

theorem storeGet_storeSet_ne (st : Store) (k k' : Slug) (v : RecipeY)
    (h : k ≠ k') : storeGet (storeSet st k v) k' = storeGet st k' := by
  induction st with
  | nil => simp [storeSet, storeGet, h]
  | cons sy st ih =>
    by_cases h1 : sy.1 = k
    · subst h1; simp [storeSet, storeGet, h]
    · simp [storeSet, storeGet, h1, ih]

theorem storeGet_isSome_storeSet (st : Store) (k k' : Slug) (v : RecipeY)
    (h : (storeGet st k').isSome) : (storeGet (storeSet st k v) k').isSome := by
  by_cases hk : k = k'
  · subst hk; simp [storeGet_storeSet_self]
  · rwa [storeGet_storeSet_ne st k k' v hk]

theorem storeGet_mem (st : Store) (k : Slug) (y : RecipeY)
    (h : storeGet st k = some y) : (k, y) ∈ st := by
  induction st with
  | nil => simp [storeGet] at h
  | cons sy st ih =>
    obtain ⟨s, y'⟩ := sy
    by_cases h1 : s = k
    · simp [storeGet, h1] at h
      simp [h1, h]
    · simp [storeGet, h1] at h
      exact List.mem_cons_of_mem _ (ih h)

theorem fsGet_fsSet_ne (fs : FS) (k k' v : List Nat) (h : k ≠ k') :
    fsGet (fsSet fs k v) k' = fsGet fs k' := by
  induction fs with
  | nil => simp [fsSet, fsGet, h]
  | cons pd fs ih =>
    by_cases h1 : pd.1 = k
    · subst h1; simp [fsSet, fsGet, h]
    · simp [fsSet, fsGet, h1, ih]

/-- Claim C3 — Atomic File Writer crash safety: if atomic_write stops at any
point before the final rename (directory creation, temporary-file write,
flush or fsync raising), the content found at the target path is exactly what
was there before the call — its prior content or its prior absence. -/
theorem atomic_write_crash_preserves_target (fs : FS)
    (path tmp data written : List Nat) (k : Nat)
    (htmp : tmp ≠ path) (hk : k ≤ 4) :
    fsGet (atomic_write_run fs path tmp data written k) path = fsGet fs path := by
  unfold atomic_write_run
  by_cases h1 : k ≤ 1
  · simp [h1]
  · by_cases h2 : k = 2
    · simp [h1, h2, fsGet_fsSet_ne fs tmp path written htmp]
    · simp [h1, h2, hk, fsGet_fsSet_ne fs tmp path data htmp]

/-- Witness for C3 at a concrete filesystem: the target holds old content,
the writer crashes right after fsync (k = 4), the old content survives. -/
theorem atomic_write_crash_preserves_target_witness :
    sc ("tmp123") ≠ sc ("r.yaml") ∧ 4 ≤ 4 ∧
      fsGet (atomic_write_run [(sc ("r.yaml"), [1, 2])] (sc ("r.yaml"))
        (sc ("tmp123")) [3, 4] [3] 4) (sc ("r.yaml")) =
      fsGet [(sc ("r.yaml"), [1, 2])] (sc ("r.yaml")) :=
  ⟨by decide, by decide,
    atomic_write_crash_preserves_target [(sc ("r.yaml"), [1, 2])] (sc ("r.yaml"))
      (sc ("tmp123")) [3, 4] [3] 4 (by decide) (by decide)⟩

/-- Claim C1 — the update path does not remove the old record file: calling
write_recipe with old slug "pancakes" and a record whose title derives
"banana-pancakes" writes the new file but leaves the old one in place, in
contradiction with the claim (and with tests/test_recipes_api.py, which
asserts the old path no longer exists after a title-changing update). -/
theorem write_recipe_leaves_stale_old_file :
    (write_recipe (sc ("pancakes")) exB [(sc ("pancakes"), dict_for_yaml exA)]).1 =
      sc ("banana-pancakes") ∧
    sc ("banana-pancakes") ≠ sc ("pancakes") ∧
    storeGet (write_recipe (sc ("pancakes")) exB
        [(sc ("pancakes"), dict_for_yaml exA)]).2 (sc ("pancakes")) =
      some (dict_for_yaml exA) ∧
    storeGet (write_recipe (sc ("pancakes")) exB
        [(sc ("pancakes"), dict_for_yaml exA)]).2 (sc ("banana-pancakes")) =
      some (dict_for_yaml exB) := by
  refine ⟨by decide, by decide, by decide, by decide⟩

/-- Claim C7 — safe_join path containment is violated: for base
/data/recipes and components ../recipes2/x, the resolved candidate
/data/recipes2/x is outside the base directory, yet safe_join accepts it,
because the string "/data/recipes2/x" starts with "/data/recipes". -/
theorem safe_join_accepts_escaping_path :
    safe_join [sc ("data"), sc ("recipes")] [sc (".."), sc ("recipes2"), sc ("x")] =
      some [sc ("data"), sc ("recipes2"), sc ("x")] ∧
    underBase [sc ("data"), sc ("recipes")]
      [sc ("data"), sc ("recipes2"), sc ("x")] = false := by
  refine ⟨by decide, by decide⟩

/-- Claim C9 — the Ingredient unit rule: constructing an ingredient whose
weight is None or zero always forces unit to the empty string, whatever unit
was supplied, and its serialized form (as embedded in dict_for_yaml) carries
no unit key at all. -/
theorem ingredient_unit_forced_empty (name : List Nat) (w : Option Rat)
    (v : Option (List Nat)) (hn : name ≠ []) (hw : w = none ∨ w = some 0) :
    mkIngredient name w v = some ⟨name, w, unitValidator w v⟩ ∧
    unitValidator w v = [] ∧
    (serializeIngredient ⟨name, w, unitValidator w v⟩).unit = none := by
  have hu : unitValidator w v = [] := by
    rcases hw with h | h <;> subst h <;> simp [unitValidator]
  refine ⟨?_, hu, ?_⟩
  · simp [mkIngredient, hn]
  · simp [serializeIngredient, hu]

/-- Witness for C9: weight None with the non-empty unit "g" yields an
ingredient with unit cleared and no persisted unit key. -/
theorem ingredient_unit_forced_empty_witness :
    sc ("Salt") ≠ [] ∧
    (mkIngredient (sc ("Salt")) none (some (sc ("g"))) =
        some ⟨sc ("Salt"), none, unitValidator none (some (sc ("g")))⟩ ∧
      unitValidator none (some (sc ("g"))) = [] ∧
      (serializeIngredient
        ⟨sc ("Salt"), none, unitValidator none (some (sc ("g")))⟩).unit = none) :=
  ⟨by decide, ingredient_unit_forced_empty (sc ("Salt")) none (some (sc ("g")))
    (by decide) (Or.inl rfl)⟩

/-! ## Pagination claims (C5, C10) -/

/-- A recipe file content parameterized by a one-character title, used to
populate stores in counterexamples. -/
def tinyRecipe (c : Nat) : Recipe :=
  { title := [c]
    tags := none
    ingredients := [{ name := sc ("x"), weight := none, unit := [] }]
    steps := [{ text := sc ("s"), image_path := none }]
    dish_image_path := none }

/-- A store of eleven parseable single-letter records a..k. -/
def elevenStore : Store :=
  (List.range 11).map (fun n => ([97 + n], dict_for_yaml (tinyRecipe (97 + n))))

/-- Claim C5 counterexample — on a store of eleven records,
search(page=0, page_size=-5) returns only ten items (paginate replaces the
invalid page_size by its internal fallback 10) while search(page=1,
page_size=20), the function's default page size, returns all eleven; the two
results are not identical. -/
theorem search_page_zero_default_cex :
    search_recipes elevenStore none none none 0 (-5) ≠
      search_recipes elevenStore none none none 1 20 := by
  decide

/-- Claim C5 amended — search with page=0 and page_size=-5 behaves
identically (same total, same items in the same order) to search with page=1
and page_size=10, the fallback paginate substitutes for an invalid size;
this holds on every store and filter combination. -/
theorem search_page_zero_clamps_to_ten (st : Store)
    (q tag ingredient : Option (List Nat)) :
    search_recipes st q tag ingredient 0 (-5) =
      search_recipes st q tag ingredient 1 10 := by
  rfl

/-- Claim C10 — an empty-string filter argument is falsy, so search treats
it exactly as an absent filter: supplying query, tag or ingredient as ""
gives the same result as not supplying it (in particular tag="" returns
every record rather than none). -/
theorem search_empty_filters_ignored (st : Store)
    (q tag ingredient : Option (List Nat)) (page page_size : Int) :
    search_recipes st (some []) tag ingredient page page_size =
        search_recipes st none tag ingredient page page_size ∧
      search_recipes st q (some []) ingredient page page_size =
        search_recipes st q none ingredient page page_size ∧
      search_recipes st q tag (some []) page page_size =
        search_recipes st q tag none page page_size := by
  refine ⟨?_, ?_, ?_⟩ <;>
    simp [search_recipes, matchesRec, strTruthy]

/-! ## Search filter semantics (C4)

The three predicates below are written from the spec's words, to be compared
with the matches closure implemented in search_recipes. -/

/-- Spec: query is a case-insensitive substring of the title OR of any tag. -/
def queryMatchSpec (q : List Nat) (r : Recipe) : Bool :=
  isSubStr (lowerStr q) (lowerStr r.title) ||
    (r.tags.getD []).any (fun t => isSubStr (lowerStr q) (lowerStr t))

/-- Spec: tag is a case-insensitive exact match of some tag. -/
def tagMatchSpec (tg : List Nat) (r : Recipe) : Bool :=
  (r.tags.getD []).any (fun t => lowerStr tg = lowerStr t)

/-- Spec: ingredient is a case-insensitive substring of some ingredient
name. -/
def ingMatchSpec (ing : List Nat) (r : Recipe) : Bool :=
  r.ingredients.any (fun i => isSubStr (lowerStr ing) (lowerStr i.name))

/-- Projection of a filtered row into the returned item dictionary. -/
def toSearchItem (sr : Slug × Recipe) : SearchItem :=
  ⟨sr.1, sr.2.title, sr.2.tags.getD [], sr.2.dish_image_path⟩

/-- Claim C4 — with all three filters supplied non-empty, search keeps
exactly the records satisfying the conjunction of the three spec predicates
(case-insensitive query substring on title or tags, case-insensitive exact
tag, case-insensitive ingredient-name substring), its total is the number of
filtered records whatever page is requested, and its items are the requested
page of the filtered sequence in store order. -/
theorem search_conjunctive_filters (st : Store) (q tg ing : List Nat)
    (page page_size : Int) (hq : q ≠ []) (ht : tg ≠ []) (hi : ing ≠ []) :
    (search_recipes st (some q) (some tg) (some ing) page page_size).total =
      ((get_all_recipes st).filter (fun sr =>
        queryMatchSpec q sr.2 && tagMatchSpec tg sr.2 && ingMatchSpec ing sr.2)).length ∧
    (search_recipes st (some q) (some tg) (some ing) page page_size).items =
      (paginate ((get_all_recipes st).filter (fun sr =>
        queryMatchSpec q sr.2 && tagMatchSpec tg sr.2 && ingMatchSpec ing sr.2))
        page page_size).map toSearchItem := by
  have hm : ∀ r : Recipe, matchesRec (some q) (some tg) (some ing) r =
      (queryMatchSpec q r && tagMatchSpec tg r && ingMatchSpec ing r) := by
    intro r
    simp only [matchesRec, strTruthy, Option.getD_some, queryMatchSpec,
      tagMatchSpec, ingMatchSpec]
    cases q with
    | nil => exact absurd rfl hq
    | cons a l =>
      cases tg with
      | nil => exact absurd rfl ht
      | cons b m =>
        cases ing with
        | nil => exact absurd rfl hi
        | cons c n =>
          simp [Bool.and_assoc]
  have hfilter : ∀ l : List (Slug × Recipe),
      l.filter (fun sr => matchesRec (some q) (some tg) (some ing) sr.2) =
      l.filter (fun sr =>
        queryMatchSpec q sr.2 && tagMatchSpec tg sr.2 && ingMatchSpec ing sr.2) := by
    intro l
    apply List.filter_congr
    intro sr _
    exact hm sr.2
  constructor
  · simp only [search_recipes, hfilter]
  · simp only [search_recipes, hfilter]
    rfl

/-- Witness for C4 on a concrete one-record store with the filters
query="tomato", tag="HOME", ingredient="egg". -/
theorem search_conjunctive_filters_witness :
    sc ("tomato") ≠ [] ∧ sc ("HOME") ≠ [] ∧ sc ("egg") ≠ [] ∧
    ((search_recipes [(sc ("tomato-egg"), dict_for_yaml exA)] (some (sc ("tomato")))
        (some (sc ("HOME"))) (some (sc ("egg"))) 1 20).total =
      ((get_all_recipes [(sc ("tomato-egg"), dict_for_yaml exA)]).filter (fun sr =>
        queryMatchSpec (sc ("tomato")) sr.2 && tagMatchSpec (sc ("HOME")) sr.2 &&
          ingMatchSpec (sc ("egg")) sr.2)).length ∧
    (search_recipes [(sc ("tomato-egg"), dict_for_yaml exA)] (some (sc ("tomato")))
        (some (sc ("HOME"))) (some (sc ("egg"))) 1 20).items =
      (paginate ((get_all_recipes [(sc ("tomato-egg"), dict_for_yaml exA)]).filter
          (fun sr => queryMatchSpec (sc ("tomato")) sr.2 &&
            tagMatchSpec (sc ("HOME")) sr.2 && ingMatchSpec (sc ("egg")) sr.2))
        1 20).map toSearchItem) :=
  ⟨by decide, by decide, by decide,
    search_conjunctive_filters [(sc ("tomato-egg"), dict_for_yaml exA)]
      (sc ("tomato")) (sc ("HOME")) (sc ("egg")) 1 20
      (by decide) (by decide) (by decide)⟩

/-! ## Slug shape (C2) -/

/-- The character alphabet the claim asserts for slugs: lowercase ASCII
letters, ASCII digits and hyphens. -/
def asciiSlugChar (c : Nat) : Bool :=
  decide ((48 ≤ c ∧ c ≤ 57) ∨ (97 ≤ c ∧ c ≤ 122) ∨ c = 45)

/-- The character alphabet the code actually guarantees: a hyphen, or a
lowercase-fixed point of the modelled Python alphanumerics. -/
def slugChar (c : Nat) : Bool := c == 45 || (py_isalnum c && py_lower c == c)

/-- No two consecutive hyphens. -/
def noDoubleHy : List Nat → Bool
  | a :: b :: l => !(a == 45 && b == 45) && noDoubleHy (b :: l)
  | _ => true

/-- Claim C2 counterexample — the title "é" (U+00E9): Python's isalnum is
true for it, so slugify keeps it and returns "é", an output that is not
made of ASCII letters, digits and hyphens, and a character that is neither
CJK nor ASCII alphanumeric yet is not treated as a separator. -/
theorem slugify_not_ascii_only_cex :
    slugify_title [233] = [233] ∧
      (slugify_title [233]).all asciiSlugChar = false := by
  decide

theorem slugChar_lower (c : Nat) (h : py_isalnum c = true) :
    slugChar (py_lower c) = true := by
  simp only [py_isalnum, decide_eq_true_eq] at h
  simp only [slugChar, py_lower, py_isalnum, Bool.or_eq_true, Bool.and_eq_true,
    beq_iff_eq, decide_eq_true_eq]
  split_ifs <;> omega

theorem slugChar_frag (c d : Nat) (hd : d ∈ charFrag c) : slugChar d = true := by
  unfold charFrag at hd
  by_cases hc : isCJK c = true
  · rw [if_pos hc] at hd
    have hc' : 0x4e00 ≤ c ∧ c ≤ 0x9fff := by simpa [isCJK] using hc
    unfold lazy_pinyin1 pinyinTable at hd
    by_cases h1 : c = 0x4e2d
    · simp only [h1, if_pos rfl, Option.getD_some] at hd
      have hall : ∀ x ∈ (sc ("zhong")).map py_lower, slugChar x = true := by decide
      exact hall d hd
    · by_cases h2 : c = 0x996d
      · simp only [h1, h2, if_neg, if_pos rfl, Option.getD_some, ite_false] at hd
        have hall : ∀ x ∈ (sc ("fan")).map py_lower, slugChar x = true := by decide
        exact hall d hd
      · simp only [h1, h2, ite_false, Option.getD_none, List.map_cons,
          List.map_nil, List.mem_singleton] at hd
        have hl : py_lower c = c := by
          simp only [py_lower]
          split_ifs <;> omega
        subst hd
        rw [hl]
        simp only [slugChar, Bool.or_eq_true, Bool.and_eq_true, beq_iff_eq,
          py_isalnum, decide_eq_true_eq]
        right
        exact ⟨Or.inr (Or.inr (Or.inr (Or.inr (Or.inr (Or.inr hc'))))), hl⟩
  · rw [if_neg hc] at hd
    by_cases ha : py_isalnum c = true
    · rw [if_pos ha] at hd
      simp only [List.mem_singleton] at hd
      subst hd
      exact slugChar_lower c ha
    · rw [if_neg ha] at hd
      simp only [List.mem_singleton] at hd
      subst hd
      decide

theorem mem_collapseHy (l : List Nat) (d : Nat) (h : d ∈ collapseHy l) : d ∈ l := by
  induction l using collapseHy.induct with
  | case1 => simpa [collapseHy] using h
  | case2 a => simpa [collapseHy] using h
  | case3 a b l hab ih =>
    rw [collapseHy, if_pos hab] at h
    exact List.mem_cons_of_mem _ (ih h)
  | case4 a b l hab ih =>
    rw [collapseHy, if_neg hab] at h
    rcases List.mem_cons.mp h with h | h
    · simp [h]
    · exact List.mem_cons_of_mem _ (ih h)

theorem collapseHy_cons : ∀ (l : List Nat) (a : Nat),
    ∃ t, collapseHy (a :: l) = a :: t := by
  intro l
  induction l with
  | nil => exact fun a => ⟨[], rfl⟩
  | cons b l ih =>
    intro a
    by_cases hab : a = 45 ∧ b = 45
    · obtain ⟨t, ht⟩ := ih b
      rw [collapseHy, if_pos hab, ht]
      exact ⟨t, by rw [hab.1, hab.2]⟩
    · rw [collapseHy, if_neg hab]
      exact ⟨collapseHy (b :: l), rfl⟩

theorem noDoubleHy_collapseHy (l : List Nat) : noDoubleHy (collapseHy l) = true := by
  induction l using collapseHy.induct with
  | case1 => rfl
  | case2 a => rfl
  | case3 a b l hab ih => rw [collapseHy, if_pos hab]; exact ih
  | case4 a b l hab ih =>
    rw [collapseHy, if_neg hab]
    obtain ⟨t, ht⟩ := collapseHy_cons l b
    rw [ht]
    rw [ht] at ih
    simp only [noDoubleHy, Bool.and_eq_true, Bool.not_eq_eq_eq_not, Bool.not_true]
    constructor
    · simp only [Bool.and_eq_false_iff, beq_eq_false_iff_ne]
      by_cases h1 : a = 45
      · exact Or.inr (fun hb => hab ⟨h1, hb⟩)
      · exact Or.inl h1
    · exact ih

theorem trimRight_sublist (p : Nat → Bool) (l : List Nat) :
    List.Sublist (trimRight p l) l := by
  induction l with
  | nil => exact List.Sublist.refl []
  | cons a l ih =>
    rw [trimRight]
    cases ht : trimRight p l with
    | nil =>
      show (if p a = true then ([] : List Nat) else [a]).Sublist (a :: l)
      split_ifs
      · exact List.nil_sublist _
      · exact (List.nil_sublist l).cons₂ a
    | cons c t =>
      show (a :: c :: t).Sublist (a :: l)
      rw [← ht]
      exact ih.cons₂ a

theorem mem_dropWhile (p : Nat → Bool) (l : List Nat) (d : Nat)
    (h : d ∈ l.dropWhile p) : d ∈ l := by
  induction l with
  | nil => simpa using h
  | cons a l ih =>
    rw [List.dropWhile_cons] at h
    split_ifs at h
    · exact List.mem_cons_of_mem _ (ih h)
    · exact h

theorem trimRight_head? (p : Nat → Bool) (l : List Nat) (c : Nat)
    (h : (trimRight p l).head? = some c) : l.head? = some c := by
  cases l with
  | nil => simp [trimRight] at h
  | cons a l =>
    rw [trimRight] at h
    cases ht : trimRight p l with
    | nil =>
      rw [ht] at h
      split_ifs at h
      · simp at h
      · simpa using h
    | cons c' t =>
      rw [ht] at h
      simpa using h

theorem trimRight_getLast_not (p : Nat → Bool) :
    ∀ (l : List Nat) (c : Nat), (trimRight p l).getLast? = some c → p c = false := by
  intro l
  induction l with
  | nil => intro c h; simp [trimRight] at h
  | cons a l ih =>
    intro c h
    rw [trimRight] at h
    cases ht : trimRight p l with
    | nil =>
      rw [ht] at h
      by_cases hp : p a
      · simp [hp] at h
      · simp [hp] at h
        subst h
        simpa using hp
    | cons c' t =>
      rw [ht] at h
      rw [List.getLast?_cons_cons] at h
      rw [← ht] at h
      exact ih c h

theorem dropWhile_head_not (p : Nat → Bool) (l : List Nat) (c : Nat)
    (h : (l.dropWhile p).head? = some c) : p c = false := by
  induction l with
  | nil => simp at h
  | cons a l ih =>
    rw [List.dropWhile_cons] at h
    split_ifs at h with hp
    · exact ih h
    · simp only [List.head?_cons, Option.some.injEq] at h
      subst h
      simpa using hp

theorem noDoubleHy_tail (a : Nat) (l : List Nat)
    (h : noDoubleHy (a :: l) = true) : noDoubleHy l = true := by
  cases l with
  | nil => rfl
  | cons b t =>
    rw [noDoubleHy, Bool.and_eq_true] at h
    exact h.2

theorem noDoubleHy_dropWhile (p : Nat → Bool) (l : List Nat)
    (h : noDoubleHy l = true) : noDoubleHy (l.dropWhile p) = true := by
  induction l with
  | nil => rfl
  | cons a l ih =>
    rw [List.dropWhile_cons]
    split_ifs
    · exact ih (noDoubleHy_tail a l h)
    · exact h

theorem noDoubleHy_trimRight (p : Nat → Bool) :
    ∀ l : List Nat, noDoubleHy l = true → noDoubleHy (trimRight p l) = true := by
  intro l
  induction l with
  | nil => intro h; rfl
  | cons a l ih =>
    intro h
    rw [trimRight]
    cases ht : trimRight p l with
    | nil => split_ifs <;> rfl
    | cons c t =>
      have hh : l.head? = some c := trimRight_head? p l c (by rw [ht]; rfl)
      cases l with
      | nil => simp at hh
      | cons b rest =>
        have hb : b = c := by simpa using hh
        subst hb
        rw [noDoubleHy, Bool.and_eq_true] at h
        rw [noDoubleHy, Bool.and_eq_true]
        refine ⟨h.1, ?_⟩
        rw [← ht]
        exact ih h.2

/-- Claim C2 amended — for every title, the slug is non-empty, has no
leading hyphen, no trailing hyphen and no two consecutive hyphens, and each
of its characters is either a hyphen or a lowercase-fixed Python
alphanumeric (Unicode, not only ASCII: the modelled alphanumerics cover the
ASCII, Latin-1 and CJK ranges); every character that is neither CJK nor a
Python alphanumeric is treated as a separator. -/
theorem slugify_slug_shape (t : List Nat) :
    slugify_title t ≠ [] ∧
      (∀ c ∈ slugify_title t, slugChar c = true) ∧
      (slugify_title t).head? ≠ some 45 ∧
      (slugify_title t).getLast? ≠ some 45 ∧
      noDoubleHy (slugify_title t) = true := by
  by_cases hs : (pyStripBy (fun c => c == 45)
      (collapseHy (t.map charFrag).flatten)).isEmpty
  · rw [slugify_title, if_pos hs]
    decide
  · rw [slugify_title, if_neg hs]
    set j := (t.map charFrag).flatten with hj
    set s := pyStripBy (fun c => c == 45) (collapseHy j) with hsdef
    have hmem : ∀ c ∈ s, slugChar c = true := by
      intro c hc
      have h1 : c ∈ (collapseHy j).dropWhile (fun c => c == 45) :=
        (trimRight_sublist _ _).mem hc
      have h2 : c ∈ collapseHy j := mem_dropWhile _ _ _ h1
      have h3 : c ∈ j := mem_collapseHy _ _ h2
      rw [hj] at h3
      obtain ⟨frag, hfrag, hcf⟩ := List.mem_flatten.mp h3
      obtain ⟨ch, _, hch⟩ := List.mem_map.mp hfrag
      subst hch
      exact slugChar_frag ch c hcf
    refine ⟨?_, hmem, ?_, ?_, ?_⟩
    · intro h
      rw [h] at hs
      exact hs rfl
    · intro h
      have := dropWhile_head_not (fun c => c == 45) (collapseHy j) 45
        (trimRight_head? _ _ _ h)
      simp at this
    · intro h
      have := trimRight_getLast_not (fun c => c == 45) _ 45 h
      simp at this
    · exact noDoubleHy_trimRight _ _
        (noDoubleHy_dropWhile _ _ (noDoubleHy_collapseHy j))

/-! ## Strip idempotence -/

theorem dropWhile_dropWhile (p : Nat → Bool) (l : List Nat) :
    (l.dropWhile p).dropWhile p = l.dropWhile p := by
  induction l with
  | nil => rfl
  | cons a l ih =>
    rw [List.dropWhile_cons]
    split_ifs with hp
    · exact ih
    · rw [List.dropWhile_cons, if_neg hp]

theorem trimRight_trimRight (p : Nat → Bool) (l : List Nat) :
    trimRight p (trimRight p l) = trimRight p l := by
  induction l with
  | nil => rfl
  | cons a l ih =>
    rw [trimRight]
    cases ht : trimRight p l with
    | nil =>
      show trimRight p (if p a = true then [] else [a]) =
        if p a = true then [] else [a]
      split_ifs with hp
      · rfl
      · show (if p a = true then ([] : List Nat) else [a]) = [a]
        rw [if_neg hp]
    | cons c t =>
      show trimRight p (a :: c :: t) = a :: c :: t
      rw [trimRight, ← ht, ih, ht]

theorem length_dropWhile_le (p : Nat → Bool) (l : List Nat) :
    (l.dropWhile p).length ≤ l.length := by
  induction l with
  | nil => simp
  | cons a l ih =>
    rw [List.dropWhile_cons]
    split_ifs
    · exact le_trans ih (Nat.le_succ _)
    · simp

theorem dropWhile_fixed_trimRight (p : Nat → Bool) (l : List Nat)
    (h : l.dropWhile p = l) : (trimRight p l).dropWhile p = trimRight p l := by
  cases l with
  | nil => rfl
  | cons a l =>
    have hp : p a = false := by
      rw [List.dropWhile_cons] at h
      by_cases hpa : p a
      · rw [if_pos hpa] at h
        have h1 : (l.dropWhile p).length ≤ l.length := length_dropWhile_le p l
        rw [h] at h1
        simp at h1
      · simpa using hpa
    rw [trimRight]
    cases ht : trimRight p l with
    | nil =>
      show (if p a = true then ([] : List Nat) else [a]).dropWhile p =
        if p a = true then [] else [a]
      rw [if_neg (by simp [hp]), List.dropWhile_cons, if_neg (by simp [hp])]
    | cons c t =>
      show (a :: c :: t).dropWhile p = a :: c :: t
      rw [List.dropWhile_cons, if_neg (by simp [hp])]

theorem pyStripBy_idem (p : Nat → Bool) (s : List Nat) :
    pyStripBy p (pyStripBy p s) = pyStripBy p s := by
  unfold pyStripBy
  rw [dropWhile_fixed_trimRight p _ (dropWhile_dropWhile p s),
    trimRight_trimRight]

theorem pyStrip_idem (s : List Nat) : pyStrip (pyStrip s) = pyStrip s :=
  pyStripBy_idem pySpace s

/-! ## Validity invariants established by the pydantic constructors -/

/-- Invariant of a validated ingredient: non-empty name, stripped unit, and
unit forced empty when the weight is absent or zero. -/
def ingValidB (i : Ingredient) : Bool :=
  !i.name.isEmpty && (pyStrip i.unit == i.unit) &&
    (match i.weight with
     | none => i.unit.isEmpty
     | some wv => !(wv == 0) || i.unit.isEmpty)

/-- Invariant of a validated step: non-empty stripped text. -/
def stepValidB (s : Step) : Bool :=
  !s.text.isEmpty && (pyStrip s.text == s.text)

/-- Invariant of validated tags: absent, or a non-empty list of non-empty
stripped tags. -/
def tagsValidB : Option (List (List Nat)) → Bool
  | none => true
  | some l => !l.isEmpty && l.all (fun t => !t.isEmpty && (pyStrip t == t))

/-- Invariant of a validated recipe, as established by Recipe(**data). -/
def validRecipeB (r : Recipe) : Bool :=
  !r.title.isEmpty && tagsValidB r.tags &&
    !r.ingredients.isEmpty && r.ingredients.all ingValidB &&
    !r.steps.isEmpty && r.steps.all stepValidB

/-- What the persistence round trip does to a step: the text is kept, the
image path is posix-normalized and dropped when empty. -/
def normStep (s : Step) : Step :=
  ⟨s.text,
    match s.image_path with
    | none => none
    | some p => if p.isEmpty then none else some (posixNorm p)⟩

/-- What the round trip does to the cover image path. -/
def normDish : Option (List Nat) → Option (List Nat)
  | none => none
  | some p => if p.isEmpty then some p else some (posixNorm p)

/-- What the round trip does to a whole valid recipe: only the asset-path
fields change. -/
def normRecipe (r : Recipe) : Recipe :=
  { r with
    steps := r.steps.map normStep
    dish_image_path := normDish r.dish_image_path }

/-! ## Round-trip lemmas: serialize then parse -/

theorem numToRat_ratToY (w : Rat) : numToRat (ratToY w) = w := by
  unfold ratToY
  split_ifs with h
  · exact (Rat.den_eq_one_iff w).mp h
  · rfl

theorem parseIngredient_serialize (i : Ingredient) (h : ingValidB i = true) :
    parseIngredient (serializeIngredient i) = some i := by
  simp only [ingValidB, Bool.and_eq_true, Bool.not_eq_eq_eq_not, Bool.not_true,
    beq_iff_eq] at h
  obtain ⟨⟨hname, hstrip⟩, hwu⟩ := h
  unfold parseIngredient serializeIngredient mkIngredient
  rw [if_neg (by simp [hname])]
  have hw : (i.weight.map ratToY).map numToRat = i.weight := by
    cases hw : i.weight with
    | none => rfl
    | some w => simp [numToRat_ratToY]
  rw [hw]
  have hu : unitValidator i.weight (if i.unit.isEmpty then none else some i.unit) =
      i.unit := by
    unfold unitValidator
    cases hwv : i.weight with
    | none =>
      rw [hwv] at hwu
      simp only [List.isEmpty_eq_true] at hwu
      exact hwu.symm
    | some wv =>
      rw [hwv] at hwu
      simp only [Bool.or_eq_true, Bool.not_eq_eq_eq_not, Bool.not_true,
        beq_eq_false_iff_ne, ne_eq, List.isEmpty_eq_true] at hwu
      show (if wv = 0 then []
        else pyStrip ((if i.unit.isEmpty then none else some i.unit).getD [])) =
        i.unit
      by_cases h0 : wv = 0
      · rcases hwu with hwu | hwu
        · exact absurd h0 hwu
        · rw [if_pos h0, hwu]
      · rw [if_neg h0]
        by_cases he : i.unit.isEmpty
        · rw [if_pos he]
          simp only [List.isEmpty_eq_true] at he
          rw [he]
          rfl
        · rw [if_neg he]
          exact hstrip
  rw [hu]

theorem parseSteps_serialize (l : List Step) (h : ∀ s ∈ l, stepValidB s = true) :
    parseSteps (l.map serializeStep) = l.map normStep := by
  induction l with
  | nil => rfl
  | cons s l ih =>
    have hs := h s (List.mem_cons_self s l)
    simp only [stepValidB, Bool.and_eq_true, Bool.not_eq_eq_eq_not, Bool.not_true,
      beq_iff_eq, List.isEmpty_eq_false] at hs
    rw [List.map_cons, parseSteps]
    have htext : (serializeStep s).text = s.text := rfl
    rw [htext, hs.2, if_neg (by simp [hs.1]),
      ih (fun s hs => h s (List.mem_cons_of_mem _ hs))]
    rfl

theorem stripTags_valid_id (l : List (List Nat))
    (h : ∀ t ∈ l, t ≠ [] ∧ pyStrip t = t) : stripTags l = l := by
  induction l with
  | nil => rfl
  | cons t l ih =>
    have ht := h t (List.mem_cons_self t l)
    rw [stripTags, ht.2, if_neg (by simp [ht.1]),
      ih (fun t ht' => h t (List.mem_cons_of_mem _ ht'))]

theorem parseTags_valid_id (o : Option (List (List Nat)))
    (h : tagsValidB o = true) : parseTags o = o := by
  cases o with
  | none => rfl
  | some l =>
    simp only [tagsValidB, Bool.and_eq_true, List.isEmpty_eq_false,
      List.all_eq_true, Bool.not_eq_eq_eq_not, Bool.not_true, beq_iff_eq] at h
    rw [parseTags, stripTags_valid_id l h.2, if_neg (by simp [h.1])]

theorem mapOpt_map_of (f : β → Option α) (g : α → β) (l : List α)
    (h : ∀ a ∈ l, f (g a) = some a) : mapOpt f (l.map g) = some l := by
  induction l with
  | nil => rfl
  | cons a l ih =>
    simp only [List.map_cons, mapOpt, h a (List.mem_cons_self a l),
      ih (fun b hb => h b (List.mem_cons_of_mem _ hb))]

/-- Serialize-then-parse round trip: a valid recipe reads back exactly,
except that each image path has been posix-normalized and empty step image
paths dropped (the normRecipe normalization). -/
theorem parseRecipe_dict_for_yaml (r : Recipe) (h : validRecipeB r = true) :
    parseRecipe (dict_for_yaml r) = some (normRecipe r) := by
  simp only [validRecipeB, Bool.and_eq_true, List.isEmpty_eq_false,
    Bool.not_eq_eq_eq_not, Bool.not_true, List.all_eq_true] at h
  obtain ⟨⟨⟨⟨⟨htitle, htags⟩, hings⟩, hingv⟩, hsteps⟩, hstepv⟩ := h
  show parseRecipe
    ⟨r.title, r.tags, r.ingredients.map serializeIngredient,
      r.steps.map serializeStep,
      match r.dish_image_path with
      | none => none
      | some p => if p.isEmpty then some p else some (posixNorm p)⟩ =
    some (normRecipe r)
  rw [parseRecipe]
  rw [if_neg (by simp [htitle])]
  rw [mapOpt_map_of parseIngredient serializeIngredient r.ingredients
    (fun i hi => parseIngredient_serialize i (hingv i hi))]
  rw [Option.some_bind]
  simp only
  rw [if_neg (by simp [hings])]
  rw [parseSteps_serialize r.steps hstepv]
  rw [if_neg (by simp [hsteps])]
  rw [parseTags_valid_id r.tags htags]
  rfl

theorem mapOpt_mem (f : α → Option β) (l : List α) (l' : List β)
    (h : mapOpt f l = some l') : ∀ b ∈ l', ∃ a ∈ l, f a = some b := by
  induction l generalizing l' with
  | nil =>
    simp only [mapOpt, Option.some.injEq] at h
    subst h
    simp
  | cons a l ih =>
    rw [mapOpt] at h
    cases hfa : f a with
    | none => rw [hfa] at h; simp at h
    | some b0 =>
      rw [hfa] at h
      cases hml : mapOpt f l with
      | none => rw [hml] at h; simp at h
      | some l0 =>
        rw [hml] at h
        simp only [Option.some.injEq] at h
        subst h
        intro b hb
        rcases List.mem_cons.mp hb with hb | hb
        · exact ⟨a, List.mem_cons_self a l, hb ▸ hfa⟩
        · obtain ⟨a', ha', hfa'⟩ := ih l0 hml b hb
          exact ⟨a', List.mem_cons_of_mem _ ha', hfa'⟩

theorem mkIngredient_valid (n : List Nat) (w : Option Rat)
    (v : Option (List Nat)) (hn : n.isEmpty = false) :
    ingValidB ⟨n, w, unitValidator w v⟩ = true := by
  cases w with
  | none =>
    simp only [ingValidB, unitValidator, Bool.and_eq_true]
    exact ⟨⟨by simp [hn], by decide⟩, rfl⟩
  | some wv =>
    by_cases h0 : wv = 0
    · simp only [ingValidB, unitValidator, if_pos h0, Bool.and_eq_true]
      exact ⟨⟨by simp [hn], by decide⟩, by simp⟩
    · simp only [ingValidB, unitValidator, if_neg h0, Bool.and_eq_true]
      exact ⟨⟨by simp [hn], by simp [pyStrip_idem]⟩, by simp [h0]⟩

theorem parseIngredient_valid (iy : IngredientY) (i : Ingredient)
    (h : parseIngredient iy = some i) : ingValidB i = true := by
  unfold parseIngredient mkIngredient at h
  split_ifs at h with hname
  simp only [Option.some.injEq] at h
  subst h
  exact mkIngredient_valid iy.name _ iy.unit (by simpa using hname)

theorem parseSteps_valid (l : List StepY) :
    ∀ s ∈ parseSteps l, stepValidB s = true := by
  induction l with
  | nil => simp [parseSteps]
  | cons sy l ih =>
    intro s hs
    rw [parseSteps] at hs
    split_ifs at hs with he
    · exact ih s hs
    · rcases List.mem_cons.mp hs with hs | hs
      · subst hs
        simp only [stepValidB, Bool.and_eq_true, Bool.not_eq_eq_eq_not,
          Bool.not_true, beq_iff_eq]
        exact ⟨by simpa using he, pyStrip_idem _⟩
      · exact ih s hs

theorem stripTags_valid (l : List (List Nat)) :
    ∀ t ∈ stripTags l, t ≠ [] ∧ pyStrip t = t := by
  induction l with
  | nil => simp [stripTags]
  | cons t0 l ih =>
    intro t ht
    rw [stripTags] at ht
    split_ifs at ht with he
    · exact ih t ht
    · rcases List.mem_cons.mp ht with ht | ht
      · subst ht
        exact ⟨by simpa [List.isEmpty_iff] using he, pyStrip_idem _⟩
      · exact ih t ht

theorem parseTags_valid (o : Option (List (List Nat))) :
    tagsValidB (parseTags o) = true := by
  cases o with
  | none => rfl
  | some l =>
    rw [parseTags]
    split_ifs with he
    · rfl
    · simp only [tagsValidB, Bool.and_eq_true, List.all_eq_true]
      refine ⟨by simpa using he, ?_⟩
      intro t ht
      obtain ⟨h1, h2⟩ := stripTags_valid l t ht
      simp [h1, h2]

theorem parseRecipe_valid (y : RecipeY) (r : Recipe)
    (h : parseRecipe y = some r) : validRecipeB r = true := by
  unfold parseRecipe at h
  by_cases htitle : y.title.isEmpty
  · rw [if_pos htitle] at h
    simp at h
  · rw [if_neg htitle] at h
    cases hml : mapOpt parseIngredient y.ingredients with
    | none => rw [hml] at h; simp at h
    | some ings =>
      rw [hml, Option.some_bind] at h
      by_cases hie : ings.isEmpty
      · rw [if_pos hie] at h; simp at h
      · rw [if_neg hie] at h
        by_cases hse : (parseSteps y.steps).isEmpty
        · rw [if_pos hse] at h; simp at h
        · rw [if_neg hse] at h
          simp only [Option.some.injEq] at h
          subst h
          simp only [validRecipeB, Bool.and_eq_true, Bool.not_eq_eq_eq_not,
            Bool.not_true, List.all_eq_true]
          refine ⟨⟨⟨⟨⟨by simpa using htitle, parseTags_valid y.tags⟩,
            by simpa using hie⟩, ?_⟩, by simpa using hse⟩,
            parseSteps_valid y.steps⟩
          intro i hi
          obtain ⟨iy, _, hiy⟩ :=
            mapOpt_mem parseIngredient y.ingredients ings hml i hi
          exact parseIngredient_valid iy i hiy

/-- Claim C6 — persistence round trip: creating a valid record and reading
the returned slug back yields a record equal to the original in every field
(title, tags, ingredients including weights and units, step texts) except
possibly the asset-path fields, which are posix-normalized. -/
theorem create_read_roundtrip (r : Recipe) (st : Store)
    (h : validRecipeB r = true) :
    read_recipe (create_recipe r st).2 (create_recipe r st).1 =
        .ok (some (normRecipe r)) ∧
      (normRecipe r).title = r.title ∧
      (normRecipe r).tags = r.tags ∧
      (normRecipe r).ingredients = r.ingredients ∧
      (normRecipe r).steps.map Step.text = r.steps.map Step.text := by
  refine ⟨?_, rfl, rfl, rfl, ?_⟩
  · show read_recipe (storeSet st (slugify_title r.title) (dict_for_yaml r))
      (slugify_title r.title) = .ok (some (normRecipe r))
    unfold read_recipe
    rw [storeGet_storeSet_self]
    show (match parseRecipe (dict_for_yaml r) with
      | some r' => Except.ok (some r')
      | none => Except.error ()) = Except.ok (some (normRecipe r))
    rw [parseRecipe_dict_for_yaml r h]
  · show (r.steps.map normStep).map Step.text = r.steps.map Step.text
    rw [List.map_map]
    rfl

/-- Witness for C6 at a concrete valid record and the empty store. -/
theorem create_read_roundtrip_witness :
    validRecipeB exA = true ∧
      (read_recipe (create_recipe exA []).2 (create_recipe exA []).1 =
          .ok (some (normRecipe exA)) ∧
        (normRecipe exA).title = exA.title ∧
        (normRecipe exA).tags = exA.tags ∧
        (normRecipe exA).ingredients = exA.ingredients ∧
        (normRecipe exA).steps.map Step.text = exA.steps.map Step.text) :=
  ⟨by decide, create_read_roundtrip exA [] (by decide)⟩

/-! ## Import/export idempotence (C8) -/

/-- The last value the import loop writes at a given slug, over a list of
batch items (later items overwrite earlier ones). -/
def lastWrite : List (Slug × RecipeY) → Slug → Option RecipeY
  | [], _ => none
  | (_, y) :: rest, k =>
    match lastWrite rest k with
    | some v => some v
    | none =>
      match parseRecipe y with
      | none => none
      | some r =>
        if slugify_title r.title = k then some (dict_for_yaml r) else none

/-- write_recipe at the slug already derived from the title reduces to a
plain store write at that slug. -/
theorem write_recipe_derived (r : Recipe) (st : Store) :
    (write_recipe (slugify_title r.title) r st).2 =
      storeSet st (slugify_title r.title) (dict_for_yaml r) := by
  simp [write_recipe]

/-- A successful import run: the resulting store holds, at every slug, the
last value the batch writes there, and elsewhere the prior content. -/
theorem import_store_spec (items : List (Slug × RecipeY)) :
    ∀ st : Store, (∀ sy ∈ items, (parseRecipe sy.2).isSome) →
    ∃ stf c u, import_from_json items st = some (stf, c, u) ∧
      ∀ k, storeGet stf k = (lastWrite items k).elim (storeGet st k) some := by
  induction items with
  | nil =>
    intro st _
    exact ⟨st, 0, 0, rfl, fun k => by simp [lastWrite]⟩
  | cons sy rest ih =>
    intro st hp
    obtain ⟨s, y⟩ := sy
    obtain ⟨r, hy⟩ := Option.isSome_iff_exists.mp (hp (s, y) (List.mem_cons_self _ _))
    obtain ⟨stf, c, u, hrec, hspec⟩ :=
      ih (storeSet st (slugify_title r.title) (dict_for_yaml r))
        (fun sy hsy => hp sy (List.mem_cons_of_mem _ hsy))
    have hstep : ∀ k, storeGet stf k =
        (lastWrite ((s, y) :: rest) k).elim (storeGet st k) some := by
      intro k
      rw [lastWrite]
      cases hlw : lastWrite rest k with
      | some v =>
        have hk := hspec k
        rw [hlw] at hk
        simpa using hk
      | none =>
        have hk0 := hspec k
        rw [hlw] at hk0
        simp only [Option.elim] at hk0
        rw [hy]
        by_cases hk : slugify_title r.title = k
        · subst hk
          rw [hk0, storeGet_storeSet_self]
          simp
        · rw [hk0, storeGet_storeSet_ne st _ k _ hk]
          simp [hk]
    have hy' : parseRecipe y = some r := hy
    cases hex : (storeGet st (slugify_title r.title)).isSome with
    | true =>
      refine ⟨stf, c, u + 1, ?_, hstep⟩
      simp only [import_from_json, hy', write_recipe_derived, hrec, hex, if_true]
    | false =>
      refine ⟨stf, c + 1, u, ?_, hstep⟩
      simp only [import_from_json, hy', write_recipe_derived, hrec, hex,
        Bool.false_eq_true, if_false]

/-- A run over items that all parse and whose derived slugs all already
exist reports zero created and every item updated. -/
theorem import_all_updated (items : List (Slug × RecipeY)) :
    ∀ st : Store, (∀ sy ∈ items, ∃ r, parseRecipe sy.2 = some r ∧
      (storeGet st (slugify_title r.title)).isSome) →
    ∃ stf, import_from_json items st = some (stf, 0, items.length) := by
  induction items with
  | nil => intro st _; exact ⟨st, rfl⟩
  | cons sy rest ih =>
    intro st hp
    obtain ⟨s, y⟩ := sy
    obtain ⟨r, hy, hex⟩ := hp (s, y) (List.mem_cons_self _ _)
    obtain ⟨stf, hrec⟩ :=
      ih (storeSet st (slugify_title r.title) (dict_for_yaml r))
        (fun sy hsy => by
          obtain ⟨r', hy', hex'⟩ := hp sy (List.mem_cons_of_mem _ hsy)
          exact ⟨r', hy', storeGet_isSome_storeSet st _ _ _ hex'⟩)
    have hy' : parseRecipe y = some r := hy
    refine ⟨stf, ?_⟩
    simp only [import_from_json, hy', write_recipe_derived, hrec, hex, if_true,
      List.length_cons]

/-- An item of the batch whose record parses always leaves a last write at
its derived slug. -/
theorem lastWrite_isSome (items : List (Slug × RecipeY)) (s : Slug)
    (y : RecipeY) (r : Recipe) (hmem : (s, y) ∈ items)
    (hy : parseRecipe y = some r) :
    (lastWrite items (slugify_title r.title)).isSome := by
  induction items with
  | nil => simp at hmem
  | cons sy rest ih =>
    obtain ⟨s', y'⟩ := sy
    rw [lastWrite]
    cases hlw : lastWrite rest (slugify_title r.title) with
    | some v => simp
    | none =>
      rcases List.mem_cons.mp hmem with hhd | htl
      · have hy' : y' = y := congrArg Prod.snd hhd.symm
        subst hy'
        simp only [hy]
        simp
      · have hi := ih htl
        rw [hlw] at hi
        simp at hi

/-- Inversion of lastWrite: a written value comes from some batch item whose
parsed record derives that slug and serializes to that value. -/
theorem lastWrite_inv (items : List (Slug × RecipeY)) (k : Slug)
    (v : RecipeY) (h : lastWrite items k = some v) :
    ∃ s y r, (s, y) ∈ items ∧ parseRecipe y = some r ∧
      slugify_title r.title = k ∧ v = dict_for_yaml r := by
  induction items with
  | nil => simp [lastWrite] at h
  | cons sy rest ih =>
    obtain ⟨s', y'⟩ := sy
    rw [lastWrite] at h
    cases hlw : lastWrite rest k with
    | some v' =>
      simp only [hlw, Option.some.injEq] at h
      subst h
      obtain ⟨s, y, r, hmem, hy, hslug, hv⟩ := ih hlw
      exact ⟨s, y, r, List.mem_cons_of_mem _ hmem, hy, hslug, hv⟩
    | none =>
      simp only [hlw] at h
      cases hy : parseRecipe y' with
      | none => simp only [hy] at h; exact absurd h (by simp)
      | some r' =>
        simp only [hy] at h
        by_cases hk : slugify_title r'.title = k
        · rw [if_pos hk] at h
          simp only [Option.some.injEq] at h
          exact ⟨s', y', r', List.mem_cons_self _ _, hy, hk, h.symm⟩
        · rw [if_neg hk] at h
          simp at h

/-- Slug consistency of the stored files: every file whose content parses is
named by the slug its title derives. -/
def slugConsistentB (st : Store) : Bool :=
  st.all (fun sy =>
    match parseRecipe sy.2 with
    | none => true
    | some r => slugify_title r.title == sy.1)

/-- Slug consistency as a property of lookups. -/
def getConsistent (st : Store) : Prop :=
  ∀ k y r, storeGet st k = some y → parseRecipe y = some r →
    slugify_title r.title = k

/-- No two distinct record files hold the same parseable record content. -/
def noDupRecords (st : Store) : Prop :=
  ∀ k1 k2 y1 y2 r1, k1 ≠ k2 → storeGet st k1 = some y1 →
    storeGet st k2 = some y2 → parseRecipe y1 = some r1 → y1 ≠ y2

theorem slugConsistentB_getConsistent (st : Store)
    (h : slugConsistentB st = true) : getConsistent st := by
  intro k y r hget hy
  have hmem := storeGet_mem st k y hget
  have hall := List.all_eq_true.mp h (k, y) hmem
  rw [hy] at hall
  simpa using hall

theorem lastWrite_parse_consistent (items : List (Slug × RecipeY)) (k : Slug)
    (v : RecipeY) (h : lastWrite items k = some v) (r' : Recipe)
    (hv : parseRecipe v = some r') : slugify_title r'.title = k := by
  obtain ⟨s, y, r, _, hy, hslug, hveq⟩ := lastWrite_inv items k v h
  have hvalid : validRecipeB r = true := parseRecipe_valid y r hy
  rw [hveq, parseRecipe_dict_for_yaml r hvalid] at hv
  simp only [Option.some.injEq] at hv
  subst hv
  exact hslug

theorem getConsistent_step (items : List (Slug × RecipeY)) (st stf : Store)
    (hspec : ∀ k, storeGet stf k = (lastWrite items k).elim (storeGet st k) some)
    (hc : getConsistent st) : getConsistent stf := by
  intro k y r hget hy
  have hk := hspec k
  cases hlw : lastWrite items k with
  | some v =>
    rw [hlw] at hk
    simp only [Option.elim] at hk
    rw [hk] at hget
    simp only [Option.some.injEq] at hget
    subst hget
    exact lastWrite_parse_consistent items k v hlw r hy
  | none =>
    rw [hlw] at hk
    simp only [Option.elim] at hk
    rw [hk] at hget
    exact hc k y r hget hy

theorem getConsistent_noDup (st : Store) (hc : getConsistent st) :
    noDupRecords st := by
  intro k1 k2 y1 y2 r1 hne h1 h2 hp heq
  apply hne
  have e1 := hc k1 y1 r1 h1 hp
  have e2 := hc k2 y2 r1 h2 (heq ▸ hp)
  rw [← e1, ← e2]

/-- Every exported item is the serialization of a valid record. -/
theorem export_mem_spec (st : Store) (sy : Slug × RecipeY)
    (h : sy ∈ export_all_json st) :
    ∃ r0, sy.2 = dict_for_yaml r0 ∧ validRecipeB r0 = true := by
  unfold export_all_json at h
  obtain ⟨⟨s, r0⟩, hmem, heq⟩ := List.mem_map.mp h
  subst heq
  refine ⟨r0, rfl, ?_⟩
  unfold get_all_recipes at hmem
  obtain ⟨sy', _, hparse⟩ := List.mem_filterMap.mp hmem
  obtain ⟨r', hr', hpair⟩ := Option.map_eq_some'.mp hparse
  have hr0 : r' = r0 := congrArg Prod.snd hpair
  rw [← hr0]
  exact parseRecipe_valid sy'.2 r' hr'

/-- Claim C8 amended — for every slug-consistent store (each record file is
named by the slug its stored title derives), importing the export twice
succeeds; the second import reports every item updated and none created,
leaves a store whose files agree everywhere with the state after the
first import, with no two record files holding the same record afterwards. -/
theorem import_export_idempotent (st : Store) (h : slugConsistentB st = true) :
    ∃ st1 c1 u1 st2,
      (import_from_json (export_all_json st) st = some (st1, c1, u1)) ∧
      (import_from_json (export_all_json st) st1 =
        some (st2, 0, (export_all_json st).length)) ∧
      (∀ k, storeGet st2 k = storeGet st1 k) ∧
      noDupRecords st2 := by
  have hp : ∀ sy ∈ export_all_json st, (parseRecipe sy.2).isSome := by
    intro sy hsy
    obtain ⟨r0, h1, h2⟩ := export_mem_spec st sy hsy
    rw [h1, parseRecipe_dict_for_yaml r0 h2]
    rfl
  obtain ⟨st1, c1, u1, hrun1, hspec1⟩ := import_store_spec (export_all_json st) st hp
  have hp2 : ∀ sy ∈ export_all_json st, ∃ r, parseRecipe sy.2 = some r ∧
      (storeGet st1 (slugify_title r.title)).isSome := by
    intro sy hsy
    obtain ⟨r, hy⟩ := Option.isSome_iff_exists.mp (hp sy hsy)
    refine ⟨r, hy, ?_⟩
    have hsome := lastWrite_isSome (export_all_json st) sy.1 sy.2 r
      (by simpa using hsy) hy
    obtain ⟨v, hv⟩ := Option.isSome_iff_exists.mp hsome
    have hk := hspec1 (slugify_title r.title)
    rw [hv] at hk
    simp only [Option.elim] at hk
    simp [hk]
  obtain ⟨st2, hrun2⟩ := import_all_updated (export_all_json st) st1 hp2
  obtain ⟨st2', c', u', hrun2', hspec2⟩ :=
    Yenu.import_store_spec (export_all_json st) st1 hp
  rw [hrun2'] at hrun2
  simp only [Option.some.injEq, Prod.mk.injEq] at hrun2
  obtain ⟨hst2, hc', hu'⟩ := hrun2
  subst hst2
  subst hc'
  subst hu'
  have heq : ∀ k, storeGet st2' k = storeGet st1 k := by
    intro k
    have h2k := hspec2 k
    have h1k := hspec1 k
    cases hlw : lastWrite (export_all_json st) k with
    | some v =>
      rw [hlw] at h2k h1k
      simp only [Option.elim] at h2k h1k
      rw [h2k, h1k]
    | none =>
      rw [hlw] at h2k
      simpa using h2k
  have hc1 : getConsistent st1 := getConsistent_step _ st st1 hspec1
    (slugConsistentB_getConsistent st h)
  have hc2 : getConsistent st2' := getConsistent_step _ st1 st2' hspec2 hc1
  exact ⟨st1, c1, u1, st2', hrun1, hrun2', heq, getConsistent_noDup st2' hc2⟩

/-- A slug-consistent one-record store for the C8 witness. -/
def exStore : Store := [(sc ("tomato-egg"), dict_for_yaml exA)]

/-- Witness for C8 (amended) on the concrete consistent store exStore. -/
theorem import_export_idempotent_witness :
    slugConsistentB exStore = true ∧
      (∃ st1 c1 u1 st2,
        (import_from_json (export_all_json exStore) exStore =
          some (st1, c1, u1)) ∧
        (import_from_json (export_all_json exStore) st1 =
          some (st2, 0, (export_all_json exStore).length)) ∧
        (∀ k, storeGet st2 k = storeGet st1 k) ∧
        noDupRecords st2) :=
  ⟨by decide, import_export_idempotent exStore (by decide)⟩

/-- A record stored under the slug "a" although its title derives "b". -/
def exSkew : Recipe := { exA with title := sc ("b") }

/-- Its file content. -/
def ySkew : RecipeY := dict_for_yaml exSkew

/-- A store holding that record under the stale name a.yaml. -/
def skewStore : Store := [(sc ("a"), ySkew)]

/-- The same store after the import wrote b.yaml as well. -/
def skewStore1 : Store := [(sc ("a"), ySkew), (sc ("b"), ySkew)]

/-- Claim C8 counterexample — on the store holding one record at the stale
slug "a" whose title derives "b", importing its export twice does reach a
fixed point with the second import reporting one update, but the final store
holds a.yaml and b.yaml with identical record content: duplicate record
files do exist afterwards, contradicting the claim's final conjunct. -/
theorem import_twice_duplicate_cex :
    (import_from_json (export_all_json skewStore) skewStore =
        some (skewStore1, 1, 0)) ∧
      (import_from_json (export_all_json skewStore) skewStore1 =
        some (skewStore1, 0, 1)) ∧
      ¬ noDupRecords skewStore1 := by
  refine ⟨by decide, by decide, fun hnd => ?_⟩
  exact hnd (sc ("a")) (sc ("b")) ySkew ySkew (normRecipe exSkew) (by decide)
    (by decide) (by decide) (by decide) rfl

end Yenu
